import Mathlib

/-!
Verification of the pygedcom GEDCOM parser.

The development shallowly embeds `src/pygedcom/gedcom_parser.py` and
`src/pygedcom/elements/rootElements/individual.py`.  Python strings are
Lean `String`s; the Python operations used by the code (`str.split` with a
one-character separator, `" ".join`, `str.strip`, `int(...)`,
`str.startswith("@")`, negative list indexing) are modelled explicitly
below.  Exceptions (`ValueError` from `int`, `IndexError` from list
indexing) are modelled with `Except`.

Files of the repository that the claims depend on but that are absent from
the source snapshot (the generic `GedcomElement`/`GedcomRootElement`
classes, `GedcomFamily` and the other thin root elements, and
`remove_individual`) are modelled from the specification; every such
definition carries a doc comment starting with `Modelled from the spec:`.
-/

namespace PyGedcom

/-! ## Python string primitives -/

/-- Splitting a character list on a single separator character, mirroring
Python `str.split(sep)` for a one-character `sep`: the result is never
empty, adjacent separators produce empty fields, and the empty string
splits to `[[]]`. -/
def pySplitChars (sep : Char) : List Char → List (List Char)
  | [] => [[]]
  | c :: cs =>
    match pySplitChars sep cs with
    | [] => [[c]]
    | g :: gs => if c = sep then [] :: g :: gs else (c :: g) :: gs

/-- Python `s.split(sep)` for a one-character separator. -/
def pySplit (sep : Char) (s : String) : List String :=
  (pySplitChars sep s.data).map String.mk

/-- Python `sep.join(parts)`. -/
def joinSep (sep : String) : List String → String
  | [] => ""
  | [x] => x
  | x :: y :: xs => x ++ sep ++ joinSep sep (y :: xs)

/-- Whitespace removal from both ends of a character list. -/
def stripChars (l : List Char) : List Char :=
  ((l.dropWhile Char.isWhitespace).reverse.dropWhile Char.isWhitespace).reverse

/-- Python `s.strip()` (restricted to ASCII-style whitespace). -/
def pyStrip (s : String) : String := String.mk (stripChars s.data)

/-- Numeric value of a list of decimal digit characters. -/
def digitsToNat (ds : List Char) : Nat :=
  ds.foldl (fun a c => a * 10 + (c.toNat - 48)) 0

/-- Python `int(s)`, modelled for optionally signed decimal numerals with
surrounding whitespace (underscore grouping and non-ASCII digits are not
modelled).  `none` stands for a raised `ValueError`. -/
def pyInt (s : String) : Option Int :=
  match stripChars s.data with
  | [] => none
  | '-' :: ds =>
    if ds ≠ [] ∧ ds.all Char.isDigit then some (-(digitsToNat ds : Int)) else none
  | '+' :: ds =>
    if ds ≠ [] ∧ ds.all Char.isDigit then some (digitsToNat ds : Int) else none
  | ds =>
    if ds.all Char.isDigit then some (digitsToNat ds : Int) else none

/-- Python `s.startswith("@")`, specialised to the one-character pattern
used by the tokenizer. -/
def startsWithAt (s : String) : Bool :=
  match s.data with
  | [] => false
  | c :: _ => c = '@'

/-- Decimal digits of a natural number, accumulated right to left; the
fuel argument only drives the structural recursion and any fuel above the
number of digits is enough. -/
def natDigitsAux : Nat → Nat → List Char → List Char
  | 0, _, acc => acc
  | fuel + 1, n, acc =>
    if n < 10 then Char.ofNat (n + 48) :: acc
    else natDigitsAux fuel (n / 10) (Char.ofNat (n % 10 + 48) :: acc)

/-- Decimal rendering of a natural number. -/
def natToStr (n : Nat) : String := String.mk (natDigitsAux (n + 1) n [])

/-- Decimal rendering of an integer, as Python `str(level)` renders the
levels the tokenizer produced. -/
def intToStr (i : Int) : String :=
  if i < 0 then "-" ++ natToStr i.natAbs else natToStr i.toNat

/-! ## The line tokenizer (`GedcomParser.__parse_line`) -/

/-- Exceptions that can escape the parser: `ValueError` from `int(...)`
(the spec calls it `MalformedLineError`) and `IndexError` from an
out-of-bounds list access. -/
inductive LineError where
  | malformed
  | indexError
deriving DecidableEq

/-- Result of tokenizing one line: the dictionary
`{"level": ..., "xref": ..., "tag": ..., "value": ...}`. -/
structure ParsedLine where
  level : Int
  xref : Option String
  tag : String
  value : String
deriving DecidableEq

/-- The `" ".join(chars) if chars != [] else ""` computation of the
tokenizer. -/
def joinValue (xs : List String) : String :=
  if xs = [] then "" else joinSep " " xs

/-- The line tokenizer `GedcomParser.__parse_line`: split on single
spaces, pop the level (failing like `int` on a non-numeral), consume an
`@`-initial token as xref, pop the tag, and rejoin the remainder as the
value.  Accessing a popped-empty list raises `IndexError`. -/
def parseLineE (line : String) : Except LineError ParsedLine :=
  match pySplit ' ' line with
  | [] => .error .indexError
  | t0 :: rest =>
    match pyInt t0 with
    | none => .error .malformed
    | some lvl =>
      match rest with
      | [] => .error .indexError
      | t1 :: rest2 =>
        if startsWithAt t1 then
          match rest2 with
          | [] => .error .indexError
          | tg :: rest3 => .ok ⟨lvl, some t1, tg, joinValue rest3⟩
        else
          .ok ⟨lvl, none, t1, joinValue rest2⟩

/-- Re-rendering of a tokenized line in the source line format
`"<level> [<xref> ]<tag>[ <value>]"`. -/
def emitLine (pl : ParsedLine) : String :=
  intToStr pl.level ++ " " ++
    (match pl.xref with | some x => x ++ " " | none => "") ++
    pl.tag ++
    (if pl.value = "" then "" else " " ++ pl.value)

/-! ## The element tree

The generic `GedcomElement` class (its recursive partitioning of the
buffered sub-lines into a tree, `find_sub_element`, `get_value` and
`extract_gedcom`) is not part of the source snapshot; everything in this
section is modelled from the specification. -/

/-- Modelled from the spec: a generic element node, one tokenized line
together with its ordered children (`element.py` is missing from the
snapshot). -/
inductive Element where
  | mk (pl : ParsedLine) (children : List Element)

/-- Tokenized line of an element node. -/
def Element.pl : Element → ParsedLine
  | .mk p _ => p

/-- Children of an element node. -/
def Element.children : Element → List Element
  | .mk _ c => c

/-- Modelled from the spec: the recursive tree builder of `GedcomElement`.
A line at `level + 1` opens a new child; the immediately following lines
of greater level form that child's buffer, until the next line at
`level + 1` or the end of the buffer.  Lines arriving before any child is
open are dropped (the spec leaves them unspecified; they cannot occur in
well-nested input).  The fuel argument only drives the structural
recursion; any fuel exceeding the buffer length is enough. -/
def buildChildrenAux : Nat → Int → List ParsedLine → List Element
  | 0, _, _ => []
  | _ + 1, _, [] => []
  | fuel + 1, L, p :: rest =>
    if p.level = L + 1 then
      Element.mk p
          (buildChildrenAux fuel (L + 1) (rest.takeWhile fun q => decide (q.level ≠ L + 1)))
        :: buildChildrenAux fuel L (rest.dropWhile fun q => decide (q.level ≠ L + 1))
    else
      buildChildrenAux fuel L rest

/-- Modelled from the spec: the tree builder applied with enough fuel for
its buffer. -/
def buildChildren (L : Int) (pls : List ParsedLine) : List Element :=
  buildChildrenAux (pls.length + 1) L pls

/-- Modelled from the spec: `find_sub_element(tag)` returns the immediate
children whose tag matches, in source order. -/
def findSubIn (children : List Element) (tag : String) : List Element :=
  children.filter fun c => c.pl.tag == tag

mutual

/-- Modelled from the spec: the reconstitution of one element node for the
`gedcom` export — its own line in the original format followed by its
children depth-first, one line per node, each line newline-terminated. -/
def emitElement : Element → String
  | .mk pl cs => emitLine pl ++ "\n" ++ emitElements cs

/-- Reconstitution of a list of element nodes, in order. -/
def emitElements : List Element → String
  | [] => ""
  | e :: es => emitElement e ++ emitElements es

end

/-! ## Root records and specialized record types -/

/-- Modelled from the spec: the data a `GedcomRootElement` keeps of its
opening line — level, xref and tag (the value of a top-level line is not
passed on by `__create_element`) — plus the element tree built from its
buffered sub-lines. -/
structure RootRecord where
  level : Int
  xref : Option String
  tag : String
  children : List Element

/-- Modelled from the spec: construction of a root record from the parsed
opening line data and the tokenized buffer of its sub-lines. -/
def mkRootRecord (level : Int) (xref : Option String) (tag : String)
    (bufToks : List ParsedLine) : RootRecord :=
  ⟨level, xref, tag, buildChildren level bufToks⟩

/-- Modelled from the spec: xref segment of a reconstituted top-level
line; emitted only when the record carries a non-empty xref (`HEAD` is
constructed with the empty string). -/
def xrefSeg : Option String → String
  | none => ""
  | some x => if x = "" then "" else x ++ " "

/-- Modelled from the spec: `extract_gedcom` of a top-level record — its
own line (which carries no value) followed by the reconstitution of its
children. -/
def emitRoot (r : RootRecord) : String :=
  intToStr r.level ++ " " ++ xrefSeg r.xref ++ r.tag ++ "\n" ++ emitElements r.children

/-- Modelled from the spec: the decomposed date record — original textual
value plus optional day/month/year. -/
structure DateRec where
  raw : String
  day : Option String
  month : Option String
  year : Option String

/-- Modelled from the spec: date parsing heuristics — a 3-token value is
day+month+year, a 2-token value is month+year, a single token is a year. -/
def mkDate (value : String) : DateRec :=
  match pySplit ' ' value with
  | [d, m, y] => ⟨value, some d, some m, some y⟩
  | [m, y] => ⟨value, none, some m, some y⟩
  | [y] => ⟨value, none, none, some y⟩
  | _ => ⟨value, none, none, none⟩

/-- Modelled from the spec: a common event (birth/death/marriage) — the
re-typed element node with its first `DATE` child decomposed and its
first `PLAC` child's value. -/
structure CommonEvent where
  node : Element
  date : Option DateRec
  place : Option String

/-- Modelled from the spec: re-typing an element node into a common
event. -/
def mkCommonEvent (e : Element) : CommonEvent :=
  ⟨e, ((findSubIn e.children "DATE").head?).map fun d => mkDate d.pl.value,
    ((findSubIn e.children "PLAC").head?).map fun p => p.pl.value⟩

/-- The specialized individual record of
`src/pygedcom/elements/rootElements/individual.py`, with the derived
fields its constructor caches. -/
structure GedcomIndividual where
  root : RootRecord
  export_name : String
  export_first_name : String
  export_last_name : String
  export_sex : Option String
  export_media : List String
  export_birth : Option CommonEvent
  export_death : Option CommonEvent

/-- `GedcomIndividual.__find_name`: the first `NAME` child's value, or
the empty string when there is none. -/
def find_name (r : RootRecord) : String :=
  match findSubIn r.children "NAME" with
  | [] => ""
  | e :: _ => e.pl.value

/-- `GedcomIndividual.__find_first_name`:
`self.__export_name.split("/")[0].split(" ")[0].strip()`. -/
def find_first_name (name : String) : String :=
  pyStrip (((pySplit ' ' ((pySplit '/' name).headD ""))).headD "")

/-- `GedcomIndividual.__find_last_name`:
`self.__export_name.split("/")[-2].strip()`; Python raises `IndexError`
when the split has fewer than two fields. -/
def find_last_name (name : String) : Except LineError String :=
  let parts := pySplit '/' name
  if parts.length ≥ 2 then .ok (pyStrip (parts.getD (parts.length - 2) ""))
  else .error .indexError

/-- `GedcomIndividual.__find_sex`: the first `SEX` child's value or
`None`. -/
def find_sex (r : RootRecord) : Option String :=
  ((findSubIn r.children "SEX").head?).map fun e => e.pl.value

/-- `GedcomIndividual.__find_media`: the values of all `OBJE` children. -/
def find_media (r : RootRecord) : List String :=
  (findSubIn r.children "OBJE").map fun e => e.pl.value

/-- `GedcomIndividual.__init_birth` / `__init_death`: the first matching
child re-typed into a common event, or `None`. -/
def init_event (r : RootRecord) (tag : String) : Option CommonEvent :=
  ((findSubIn r.children tag).head?).map mkCommonEvent

/-- `GedcomIndividual.__init__`: caches name, first/last name, birth,
death, sex and media.  Computing the last name raises `IndexError` when
the name value contains fewer than two `/` characters. -/
def mkIndividual (r : RootRecord) : Except LineError GedcomIndividual := do
  let name := find_name r
  let fn := find_first_name name
  let ln ← find_last_name name
  .ok ⟨r, name, fn, ln, find_sex r, find_media r, init_event r "BIRT", init_event r "DEAT"⟩

/-- Modelled from the spec: the specialized family record — husband and
wife references (empty string when absent), ordered child references,
optional marriage event (`family.py` is missing from the snapshot). -/
structure GedcomFamily where
  root : RootRecord
  export_husband : String
  export_wife : String
  export_children : List String
  export_marriage : Option CommonEvent

/-- Modelled from the spec: construction of a family record from its
element tree. -/
def mkFamily (r : RootRecord) : GedcomFamily :=
  ⟨r,
    (((findSubIn r.children "HUSB").head?).map fun e => e.pl.value).getD "",
    (((findSubIn r.children "WIFE").head?).map fun e => e.pl.value).getD "",
    (findSubIn r.children "CHIL").map fun e => e.pl.value,
    init_event r "MARR"⟩

/-- Modelled from the spec: `GedcomFamily.get_parents()` — the family's
parent-reference fields, husband then wife. -/
def famGetParents (f : GedcomFamily) : List String :=
  [f.export_husband, f.export_wife]

/-- Modelled from the spec: the thin `GedcomHead` wrapper. -/
structure GedcomHead where
  root : RootRecord

/-- Modelled from the spec: the thin `GedcomSource` wrapper. -/
structure GedcomSource where
  root : RootRecord

/-- Modelled from the spec: the thin `GedcomObject` wrapper. -/
structure GedcomObject where
  root : RootRecord

/-- Modelled from the spec: the thin `GedcomRepository` wrapper. -/
structure GedcomRepository where
  root : RootRecord

/-! ## The top-level parser -/

/-- The collections a `GedcomParser` instance owns: the optional header
and the five top-level collections. -/
structure ParserState where
  head : Option GedcomHead
  individuals : List GedcomIndividual
  families : List GedcomFamily
  sources : List GedcomSource
  objects : List GedcomObject
  repositories : List GedcomRepository

/-- The freshly initialized parser state. -/
def emptyState : ParserState := ⟨none, [], [], [], [], []⟩

/-- `GedcomParser.__create_element`: dispatch of a finished top-level
line-group on its tag.  `HEAD` is constructed with the empty string as
xref; an unrecognized tag is silently dropped.  The buffered sub-lines
are tokenized by the element constructors (modelled here up front), and
`GedcomIndividual` construction can raise. -/
def createElement (pl : ParsedLine) (elementLines : List String) (st : ParserState) :
    Except LineError ParserState :=
  if pl.tag = "INDI" then do
    let toks ← elementLines.mapM parseLineE
    let ind ← mkIndividual (mkRootRecord pl.level pl.xref pl.tag toks)
    .ok { st with individuals := st.individuals ++ [ind] }
  else if pl.tag = "FAM" then do
    let toks ← elementLines.mapM parseLineE
    .ok { st with families := st.families ++ [mkFamily (mkRootRecord pl.level pl.xref pl.tag toks)] }
  else if pl.tag = "HEAD" then do
    let toks ← elementLines.mapM parseLineE
    .ok { st with head := some ⟨mkRootRecord pl.level (some "") pl.tag toks⟩ }
  else if pl.tag = "SOUR" then do
    let toks ← elementLines.mapM parseLineE
    .ok { st with sources := st.sources ++ [⟨mkRootRecord pl.level pl.xref pl.tag toks⟩] }
  else if pl.tag = "REPO" then do
    let toks ← elementLines.mapM parseLineE
    .ok { st with repositories := st.repositories ++ [⟨mkRootRecord pl.level pl.xref pl.tag toks⟩] }
  else if pl.tag = "OBJE" then do
    let toks ← elementLines.mapM parseLineE
    .ok { st with objects := st.objects ++ [⟨mkRootRecord pl.level pl.xref pl.tag toks⟩] }
  else
    .ok st

/-- The line loop of `GedcomParser.parse`: blank lines are skipped, a
line with level greater than zero joins the current buffer, any other
line finishes the current group and opens a new one; the last group is
finished at the end. -/
def parseLoop (cur : ParsedLine) (buf : List String) (st : ParserState) :
    List String → Except LineError ParserState
  | [] => createElement cur buf st
  | l :: rest =>
    if l = "" then parseLoop cur buf st rest
    else
      match parseLineE l with
      | .error e => .error e
      | .ok pl =>
        if pl.level > 0 then parseLoop cur (buf ++ [l]) st rest
        else
          match createElement cur buf st with
          | .error e => .error e
          | .ok st2 => parseLoop pl [] st2 rest

/-- `GedcomParser.parse` on a parser holding `st`, with the file content
as input: the header and all five collections are reset, the first line
is tokenized as the first group opener, and the remaining lines are
consumed by the loop. -/
def parseMethod (st : ParserState) (file : String) : Except LineError ParserState :=
  let st1 : ParserState :=
    { st with head := none, individuals := [], families := [], sources := [],
              objects := [], repositories := [] }
  let lines := pySplit '\n' file
  match parseLineE (lines.headD "") with
  | .error e => .error e
  | .ok cur => parseLoop cur [] st1 lines.tail

/-- Parsing from a fresh parser instance. -/
def parseFile (file : String) : Except LineError ParserState :=
  parseMethod emptyState file

/-- The dictionary `GedcomParser.verify` returns. -/
structure VerifyResult where
  status : String
  message : String
deriving DecidableEq

/-- The line loop of `GedcomParser.verify`: the line counter counts every
raw line; a non-blank line is tokenized and compared against the running
level. -/
def verifyLoop (curLevel : Int) (curLine : Nat) :
    List String → Except LineError VerifyResult
  | [] => .ok ⟨"ok", ""⟩
  | l :: rest =>
    if l = "" then verifyLoop curLevel (curLine + 1) rest
    else
      match parseLineE l with
      | .error e => .error e
      | .ok pl =>
        if pl.level > curLevel + 1 then
          .ok ⟨"error", "Invalid level on line " ++ natToStr (curLine + 1) ++ ": " ++ l⟩
        else
          verifyLoop pl.level (curLine + 1) rest

/-- `GedcomParser.verify` on the file content. -/
def verifyFile (file : String) : Except LineError VerifyResult :=
  verifyLoop 0 0 (pySplit '\n' file)

/-! ## Export -/

/-- Error raised by `GedcomParser.export` on an unknown format (the
source raises `FormatException`; the spec calls it
`UnsupportedFormatError`). -/
inductive FormatError where
  | formatException
deriving DecidableEq

/-- Concatenation of a list of strings. -/
def strConcat : List String → String
  | [] => ""
  | s :: ss => s ++ strConcat ss

/-- Modelled from the spec: the structured JSON export (the element
`export` methods are missing from the snapshot).  It is total; the exact
rendering is immaterial to the claims. -/
def exportJson (st : ParserState) (empty_fields : Bool) : String :=
  let inds := strConcat (st.individuals.map fun i =>
    "\"" ++ ((i.root.xref).getD "") ++ "\": \"" ++ i.export_name ++ "\", ")
  let fams := strConcat (st.families.map fun f =>
    "\"" ++ ((f.root.xref).getD "") ++ "\": \"" ++ f.export_husband ++ " " ++ f.export_wife ++ "\", ")
  (if empty_fields then "\x7b\"head\": \"\", " else "\x7b") ++
    "\"individuals\": \x7b" ++ inds ++ "\x7d, \"families\": \x7b" ++ fams ++ "\x7d\x7d"

/-- The `format == "gedcom"` branch of `GedcomParser.export`: header
first, then every individual, family, source, object and repository
depth-first, terminated by `0 TRLR`. -/
def exportGedcom (st : ParserState) : String :=
  (match st.head with | some h => emitRoot h.root | none => "") ++
    strConcat (st.individuals.map fun i => emitRoot i.root) ++
    strConcat (st.families.map fun f => emitRoot f.root) ++
    strConcat (st.sources.map fun s => emitRoot s.root) ++
    strConcat (st.objects.map fun o => emitRoot o.root) ++
    strConcat (st.repositories.map fun r => emitRoot r.root) ++
    "0 TRLR\n"

/-- `GedcomParser.export`: an unknown format raises, `"json"` produces
the structured export, `"gedcom"` the reconstitution export. -/
def gedExport (st : ParserState) (format : String) (empty_fields : Bool) :
    Except FormatError String :=
  if format ≠ "json" ∧ format ≠ "gedcom" then .error .formatException
  else if format = "json" then .ok (exportJson st empty_fields)
  else .ok (exportGedcom st)

/-! ## Lookup, relations and mutation -/

/-- `GedcomParser.find_individual` via `__find_root_element`: linear scan
by xref, `None` on a miss. -/
def find_individual (st : ParserState) (xref : String) : Option GedcomIndividual :=
  st.individuals.find? fun i => i.root.xref == some xref

/-- `GedcomParser.get_children`: for every family whose parent references
contain the individual's xref, append the lookup result of every child
reference — misses included as `None`. -/
def get_children (st : ParserState) (ind : GedcomIndividual) : List (Option GedcomIndividual) :=
  st.families.foldl
    (fun acc f =>
      if (match ind.root.xref with
          | some x => (famGetParents f).contains x
          | none => false) then
        acc ++ (f.export_children.map fun c => find_individual st c)
      else acc)
    []

/-- Modelled from the spec: `remove_individual(xref)` removes the
matching individual from its collection and blanks every family
husband/wife field equal to the reference, leaving everything else
untouched (the method is missing from the snapshot; its test is
`test/test_remove_element.py`). -/
def remove_individual (st : ParserState) (xref : String) : ParserState :=
  { st with
    individuals := st.individuals.filter fun i => !(i.root.xref == some xref),
    families := st.families.map fun f =>
      { f with
        export_husband := if f.export_husband = xref then "" else f.export_husband,
        export_wife := if f.export_wife = xref then "" else f.export_wife } }

/-! ## Auxiliary definitions used by the statements -/

/-- The non-blank lines of a file, in order. -/
def nbLines (file : String) : List String :=
  (pySplit '\n' file).filter fun l => decide (l ≠ "")

/-- A line with its terminating newline. -/
def lineNL (l : String) : String := l ++ "\n"

/-- Blank-line normalization of a file: its non-blank lines, each
newline-terminated, concatenated. -/
def normText (file : String) : String := strConcat ((nbLines file).map lineNL)

/-- Tokenization with a dummy fallback, used only on lines already known
to tokenize. -/
def tokOf (l : String) : ParsedLine := ((parseLineE l).toOption).getD ⟨0, none, "", ""⟩

/-- Level of a line already known to tokenize. -/
def levelOf (l : String) : Int := (tokOf l).level

/-- A line is good when it tokenizes, its re-rendering reproduces it
byte-for-byte, and its level is non-negative. -/
def goodLineB (l : String) : Bool :=
  match parseLineE l with
  | .ok pl => (emitLine pl == l) && decide (0 ≤ pl.level)
  | .error _ => false

/-- Validity of a level sequence: each level exceeds its predecessor by at
most one. -/
def chainB (prev : Int) : List Int → Bool
  | [] => true
  | n :: ns => (decide (n ≤ prev + 1)) && chainB n ns

/-- Well-nestedness of a buffer below a node of level `L`: every line is
deeper than `L` and climbs by at most one at a time. -/
def nestOkB (L : Int) (prev : Int) : List ParsedLine → Bool
  | [] => true
  | p :: rest => (decide (L < p.level)) && (decide (p.level ≤ prev + 1)) && nestOkB L p.level rest

/-- Collection rank of a recognized top-level tag, in the order the
`gedcom` export walks the collections. -/
def tagPhase (t : String) : Option Nat :=
  if t = "HEAD" then some 1 else if t = "INDI" then some 2 else if t = "FAM" then some 3
  else if t = "SOUR" then some 4 else if t = "OBJE" then some 5 else if t = "REPO" then some 6
  else if t = "TRLR" then some 7 else none

/-- One step of the record-order automaton: a header only at the very
start, collection tags in non-decreasing rank, a single trailer at the
end. -/
def stepPhase (s : Nat) (t : String) : Option Nat :=
  match tagPhase t with
  | none => none
  | some p =>
    if p = 1 then (if s = 0 then some 1 else none)
    else if p = 7 then (if s ≤ 6 then some 7 else none)
    else if s ≤ p then some p else none

/-- Run of the record-order automaton over a tag sequence. -/
def runPhase (s : Nat) : List String → Option Nat
  | [] => some s
  | t :: ts =>
    match stepPhase s t with
    | none => none
    | some s2 => runPhase s2 ts

/-- The level-0 lines of a non-blank line list. -/
def rootLines (ls : List String) : List String :=
  ls.filter fun l => levelOf l == 0

/-- Canonical input for the round-trip law: a non-blank first line,
every non-blank line good, levels well-nested, top-level lines valueless
with no xref on `HEAD`/`TRLR`, top-level records already in collection
order with a final trailer, the first non-blank line at level 0 and the
last non-blank line being the trailer line. -/
def canonicalB (file : String) : Bool :=
  let lines := pySplit '\n' file
  let nb := nbLines file
  (decide ((lines.headD "") ≠ "")) &&
  nb.all goodLineB &&
  chainB 0 (nb.map levelOf) &&
  (nb.all fun l =>
    (!(levelOf l == 0)) ||
      ((decide ((tokOf l).value = "")) &&
        ((!((tokOf l).tag == "HEAD" || (tokOf l).tag == "TRLR")) || (decide ((tokOf l).xref = none))))) &&
  (runPhase 0 ((rootLines nb).map fun l => (tokOf l).tag) == some 7) &&
  (levelOf (nb.headD "") == 0) &&
  (levelOf (nb.getLastD "") == 0)

/-- The `gedcom` export without its trailing trailer line: what the
already-filled collections contribute. -/
def emittedSoFar (st : ParserState) : String :=
  (match st.head with | some h => emitRoot h.root | none => "") ++
    strConcat (st.individuals.map fun i => emitRoot i.root) ++
    strConcat (st.families.map fun f => emitRoot f.root) ++
    strConcat (st.sources.map fun s => emitRoot s.root) ++
    strConcat (st.objects.map fun o => emitRoot o.root) ++
    strConcat (st.repositories.map fun r => emitRoot r.root)

/-- Invariant tying the record-order automaton state to the parser state:
collections of strictly later rank are still empty. -/
def phaseInv (s : Nat) (st : ParserState) : Prop :=
  (s < 1 → st.head = none) ∧ (s < 2 → st.individuals = []) ∧ (s < 3 → st.families = []) ∧
    (s < 4 → st.sources = []) ∧ (s < 5 → st.objects = []) ∧ (s < 6 → st.repositories = [])

/-- Scan defined by the claim about `verify`: the first non-blank line
whose level exceeds the previous non-blank line's level plus one (taking
the level before the first non-blank line as 0), with its 1-based line
number counted over all raw lines, blank ones included. -/
def specFirstViolation (prevLevel : Int) (lineNo : Nat) : List String → Option (Nat × String)
  | [] => none
  | l :: rest =>
    if l = "" then specFirstViolation prevLevel (lineNo + 1) rest
    else
      let lvl := levelOf l
      if lvl > prevLevel + 1 then some (lineNo + 1, l)
      else specFirstViolation lvl (lineNo + 1) rest

/-- A placeholder root record, used only as a `headD` default. -/
def defaultRoot : RootRecord := ⟨0, none, "", []⟩

/-- A placeholder individual, used only as a `headD` default. -/
def defaultIndividualRec : GedcomIndividual := ⟨defaultRoot, "", "", "", none, [], none, none⟩

/-- A placeholder family, used only as a `headD` default. -/
def defaultFamilyRec : GedcomFamily := ⟨defaultRoot, "", "", [], none⟩

/-- Concrete input whose only family has the same reference as husband
and as wife. -/
def c2text : String :=
  "0 @I1@ INDI\n1 NAME A /B/\n0 @F1@ FAM\n1 HUSB @I1@\n1 WIFE @I1@\n0 TRLR"

/-- The parsed state of `c2text`. -/
def c2state : ParserState := (parseFile c2text).toOption.getD emptyState

/-- Concrete input mirroring the repository's removal test: two
individuals, one family with distinct husband and wife. -/
def c2wtext : String :=
  "0 @I1@ INDI\n1 NAME John /Travolta/\n0 @I2@ INDI\n1 NAME Jane /Travolta/\n" ++
    "0 @F1@ FAM\n1 HUSB @I1@\n1 WIFE @I2@\n1 CHIL @I3@\n0 TRLR"

/-- The parsed state of `c2wtext`. -/
def c2wstate : ParserState := (parseFile c2wtext).toOption.getD emptyState

/-- The family of `c2wstate`. -/
def c2wfam : GedcomFamily := c2wstate.families.headD defaultFamilyRec

/-- Concrete input whose family lists a child reference `@I9@` that no
individual carries. -/
def c5text : String :=
  "0 @I1@ INDI\n1 NAME A /B/\n0 @F1@ FAM\n1 HUSB @I1@\n1 CHIL @I9@\n0 TRLR"

/-- The parsed state of `c5text`. -/
def c5state : ParserState := (parseFile c5text).toOption.getD emptyState

/-- The individual of `c5state`. -/
def c5ind : GedcomIndividual := c5state.individuals.headD defaultIndividualRec

/-- Concrete input used to instantiate the re-parsing law. -/
def c9file : String := "0 HEAD\n0 TRLR"

/-- The parsed state of `c9file`. -/
def c9state : ParserState := (parseFile c9file).toOption.getD emptyState

/-- Concrete input whose top-level records are not in collection order: a
family record precedes an individual record. -/
def c1text : String := "0 @F1@ FAM\n0 @I1@ INDI\n1 NAME A /B/\n0 TRLR\n"

/-- The parsed state of `c1text`. -/
def c1state : ParserState := (parseFile c1text).toOption.getD emptyState

/-- Concrete canonical input: records already in collection order with a
final trailer. -/
def c1wtext : String :=
  "0 HEAD\n1 SOUR test\n0 @I1@ INDI\n1 NAME A /B/\n0 @F1@ FAM\n1 HUSB @I1@\n0 TRLR\n"

/-- The parsed state of `c1wtext`. -/
def c1wstate : ParserState := (parseFile c1wtext).toOption.getD emptyState

/-- The `NAME` sub-element used in the name-splitting instance. -/
def c8nameElement : Element := Element.mk ⟨1, none, "NAME", "First Middle /Last/"⟩ []

/-- A root record for an individual named `First Middle /Last/`. -/
def c8root : RootRecord := ⟨0, some "@I1@", "INDI", [c8nameElement]⟩

/-! ## Supporting lemmas -/

theorem pySplitChars_ne_nil (sep : Char) (l : List Char) : pySplitChars sep l ≠ [] := by
  cases l with
  | nil => simp [pySplitChars]
  | cons c cs =>
    rw [pySplitChars]
    rcases h : pySplitChars sep cs with _ | ⟨g, gs⟩
    · simp [h]
    · simp only [h]
      split <;> simp

theorem pySplit_ne_nil (sep : Char) (s : String) : pySplit sep s ≠ [] := by
  simpa [pySplit] using pySplitChars_ne_nil sep s.data

/-! ## Claims -/

/-- Claim C3 (code_bug evidence): an individual element with no `NAME`
child has name equal to the empty string according to `__find_name`, yet
constructing the specialized record does not succeed: `__find_last_name`
raises `IndexError` on `"".split("/")[-2]`, so parsing a file with such
an individual raises instead of producing a state. -/
theorem claim_C3 :
    find_name (mkRootRecord 0 (some "@I1@") "INDI" []) = "" ∧
    mkIndividual (mkRootRecord 0 (some "@I1@") "INDI" []) = Except.error LineError.indexError ∧
    parseFile "0 @I1@ INDI\n0 TRLR" = Except.error LineError.indexError := by
  refine ⟨?_, ?_, ?_⟩ <;> rfl

/-- Claim C4 (counterexample): the line `"-1 HEAD"` has a first token
that does not parse as a NON-NEGATIVE integer, yet the tokenizer does not
fail with `MalformedLineError`: Python `int` accepts the sign and the
line tokenizes with level `-1`. -/
theorem claim_C4_counterexample :
    parseLineE "-1 HEAD" = Except.ok ⟨-1, none, "HEAD", ""⟩ := by
  exact rfl

/-- Claim C4 (amended): a line whose first token does not parse as an
optionally-signed decimal integer fails with `MalformedLineError`; a line
whose first token parses as an integer — possibly negative — and that has
a second token (and a third one when the second starts with `@`) yields
that integer as the level. -/
theorem claim_C4_amended (line : String) :
    (pyInt ((pySplit ' ' line).headD "") = none →
      parseLineE line = Except.error LineError.malformed) ∧
    (∀ n : Int, pyInt ((pySplit ' ' line).headD "") = some n →
      2 ≤ (pySplit ' ' line).length →
      (startsWithAt ((pySplit ' ' line).getD 1 "") = true → 3 ≤ (pySplit ' ' line).length) →
      ∃ pl, parseLineE line = Except.ok pl ∧ pl.level = n) := by
  rcases h : pySplit ' ' line with _ | ⟨t0, rest⟩
  · exact absurd h (pySplit_ne_nil ' ' line)
  constructor
  · intro hn
    rw [List.headD_cons] at hn
    simp [parseLineE, h, hn]
  · intro n hn hlen hsw
    rw [List.headD_cons] at hn
    cases rest with
    | nil => simp at hlen
    | cons t1 rest2 =>
      by_cases hat : startsWithAt t1 = true
      · have h3 : 3 ≤ (t0 :: t1 :: rest2).length := hsw (by simp [hat])
        cases rest2 with
        | nil => simp at h3
        | cons tg rest3 =>
          refine ⟨⟨n, some t1, tg, joinValue rest3⟩, ?_, rfl⟩
          simp [parseLineE, h, hn, hat]
      · refine ⟨⟨n, none, t1, joinValue rest2⟩, ?_, rfl⟩
        simp [parseLineE, h, hn, hat]

/-- Claim C4 (witness): the amended statement applied to the malformed
line `"x HEAD"` and to the well-formed line `"0 @I1@ INDI"`. -/
theorem claim_C4_witness :
    parseLineE "x HEAD" = Except.error LineError.malformed ∧
    ∃ pl, parseLineE "0 @I1@ INDI" = Except.ok pl ∧ pl.level = 0 := by
  exact ⟨(claim_C4_amended "x HEAD").1 (by decide),
    (claim_C4_amended "0 @I1@ INDI").2 0 (by decide) (by decide) (fun _ => by decide)⟩

/-- Claim C6 (confirmed): `export` raises `UnsupportedFormatError` (the
source's `FormatException`) for every format other than `"json"` and
`"gedcom"`, and returns a string without raising for those two. -/
theorem claim_C6 (st : ParserState) (fmt : String) (ef : Bool) :
    (fmt ≠ "json" → fmt ≠ "gedcom" →
      gedExport st fmt ef = Except.error FormatError.formatException) ∧
    (fmt = "json" ∨ fmt = "gedcom" → ∃ s, gedExport st fmt ef = Except.ok s) := by
  constructor
  · intro h1 h2
    rw [gedExport, if_pos ⟨h1, h2⟩]
  · rintro (rfl | rfl)
    · exact ⟨_, by rw [gedExport, if_neg (by simp), if_pos rfl]⟩
    · refine ⟨exportGedcom st, ?_⟩
      rw [gedExport, if_neg (by simp), if_neg (by simp)]

/-- Claim C6 (witness): the unknown format `"xml"` raises and the two
supported formats return strings, on the empty state. -/
theorem claim_C6_witness :
    gedExport emptyState "xml" true = Except.error FormatError.formatException ∧
    (∃ s, gedExport emptyState "json" true = Except.ok s) ∧
    (∃ s, gedExport emptyState "gedcom" true = Except.ok s) := by
  exact ⟨(claim_C6 emptyState "xml" true).1 (by decide) (by decide),
    (claim_C6 emptyState "json" true).2 (Or.inl rfl),
    (claim_C6 emptyState "gedcom" true).2 (Or.inr rfl)⟩

/-- Claim C9 (confirmed): `parse` resets the header and all five
collections before a pass, so its result does not depend on the parser's
prior state, and a second call on the same source reproduces the first
call's state exactly. -/
theorem claim_C9 (st1 st2 : ParserState) (file : String) :
    parseMethod st1 file = parseMethod st2 file ∧
    (∀ stA, parseMethod st1 file = Except.ok stA → parseMethod stA file = Except.ok stA) := by
  have hind : ∀ s s2 : ParserState, parseMethod s file = parseMethod s2 file := by
    intro s s2
    rfl
  refine ⟨hind st1 st2, fun stA h => ?_⟩
  rw [hind stA st1, h]

/-- Claim C9 (witness): the re-parsing law instantiated on a concrete
two-record file. -/
theorem claim_C9_witness : parseMethod c9state c9file = Except.ok c9state := by
  exact (claim_C9 emptyState emptyState c9file).2 c9state (by rfl)

/-- Claim C10 (confirmed): the single-token line `"0"` makes the
tokenizer's access to the token after the level go out of bounds, so
`verify` and `parse` on a file containing it raise `IndexError` instead
of returning; and any line the tokenizer accepts has at least two
space-separated tokens. -/
theorem claim_C10 :
    parseLineE "0" = Except.error LineError.indexError ∧
    verifyFile "0 HEAD\n0\n0 TRLR" = Except.error LineError.indexError ∧
    parseFile "0 HEAD\n0\n0 TRLR" = Except.error LineError.indexError ∧
    (∀ line pl, parseLineE line = Except.ok pl → 2 ≤ (pySplit ' ' line).length) := by
  refine ⟨rfl, rfl, rfl, fun line pl h => ?_⟩
  rcases hs : pySplit ' ' line with _ | ⟨t0, rest⟩
  · exact absurd hs (pySplit_ne_nil ' ' line)
  cases rest with
  | nil =>
    rw [parseLineE, hs] at h
    rcases hp : pyInt t0 with _ | n <;> simp [hp] at h
  | cons t1 rest2 => simp

/-- Claim C10 (witness): the totality bound applied to the two-token line
`"0 HEAD"`. -/
theorem claim_C10_witness : 2 ≤ (pySplit ' ' "0 HEAD").length := by
  exact claim_C10.2.2.2 "0 HEAD" ⟨0, none, "HEAD", ""⟩ (by rfl)

/-- Claim C5 (counterexample): in a parsed state whose family lists the
dangling child reference `@I9@`, `get_children` of the family's husband
returns a one-entry list whose entry is `None` — the unresolved reference
is None-padded, not omitted as the claim states. -/
theorem claim_C5_counterexample :
    (get_children c5state c5ind).length = 1 ∧
    (get_children c5state c5ind).map Option.isSome = [false] ∧
    find_individual c5state "@I9@" = none ∧
    c5state.families.map (fun f => f.export_children) = [["@I9@"]] := by
  exact ⟨rfl, rfl, rfl, rfl⟩

/-- Claim C5 (amended): `get_children(individual)` returns one entry per
child reference of every family whose parent references contain the
individual's xref, in order; each entry is the lookup result of that
reference, so a reference that resolves contributes the individual and an
unresolved reference contributes `None` (no error, but not omitted). -/
theorem claim_C5_amended (st : ParserState) (ind : GedcomIndividual) :
    get_children st ind =
      ((st.families.filter fun f =>
          match ind.root.xref with
          | some x => (famGetParents f).contains x
          | none => false).map fun f =>
        f.export_children.map fun c => find_individual st c).flatten := by
  have hgen : ∀ (fams : List GedcomFamily) (acc : List (Option GedcomIndividual)),
      fams.foldl
        (fun acc f =>
          if (match ind.root.xref with
              | some x => (famGetParents f).contains x
              | none => false) then
            acc ++ (f.export_children.map fun c => find_individual st c)
          else acc)
        acc =
      acc ++ ((fams.filter fun f =>
          match ind.root.xref with
          | some x => (famGetParents f).contains x
          | none => false).map fun f =>
        f.export_children.map fun c => find_individual st c).flatten := by
    intro fams
    induction fams with
    | nil => intro acc; simp
    | cons f fams ih =>
      intro acc
      simp only [List.foldl_cons, List.filter_cons]
      by_cases hc : (match ind.root.xref with
          | some x => (famGetParents f).contains x
          | none => false) = true
      · rw [if_pos hc, ih, if_pos hc, List.map_cons, List.flatten_cons, ← List.append_assoc]
      · rw [if_neg hc, ih, if_neg hc]
  simpa [get_children] using hgen st.families []

/-- Claim C2 (counterexample): in the parsed state of `c2text` the
reference `@I1@` is an individual and the family's husband, so the claim
applies; but the family's wife field is also `@I1@`, and removal blanks
it too, contradicting the claim that the wife field stays unchanged. -/
theorem claim_C2_counterexample :
    c2state.individuals.map (fun i => i.root.xref) = [some "@I1@"] ∧
    c2state.families.map (fun f => f.export_husband) = ["@I1@"] ∧
    c2state.families.map (fun f => f.export_wife) = ["@I1@"] ∧
    (remove_individual c2state "@I1@").families.map (fun f => f.export_wife) = [""] := by
  refine ⟨?_, ?_, ?_, ?_⟩ <;> rfl

/-- Claim C2 (amended): removing the xref `X` of an individual who is a
family's husband removes every individual carrying `X` from the
individuals collection and blanks that family's husband field; the wife
field is unchanged provided it does not itself equal `X` (a wife field
equal to `X` is blanked as well); children lists, marriage events, the
element trees and every other collection stay unchanged. -/
theorem claim_C2_amended (st : ParserState) (x : String) (i : Nat) (f : GedcomFamily)
    (_hx : some x ∈ st.individuals.map fun ind => ind.root.xref)
    (hf : st.families.get? i = some f)
    (hh : f.export_husband = x) (hw : f.export_wife ≠ x) :
    (∀ ind ∈ (remove_individual st x).individuals, ind.root.xref ≠ some x) ∧
    (remove_individual st x).individuals =
      st.individuals.filter (fun ind => !(ind.root.xref == some x)) ∧
    (remove_individual st x).families.get? i = some { f with export_husband := "" } ∧
    (∀ j g, st.families.get? j = some g → g.export_husband ≠ x → g.export_wife ≠ x →
      (remove_individual st x).families.get? j = some g) ∧
    (∀ j g, st.families.get? j = some g →
      ∃ g2, (remove_individual st x).families.get? j = some g2 ∧
        g2.export_children = g.export_children ∧ g2.export_marriage = g.export_marriage ∧
        g2.root = g.root) ∧
    (remove_individual st x).head = st.head ∧
    (remove_individual st x).sources = st.sources ∧
    (remove_individual st x).objects = st.objects ∧
    (remove_individual st x).repositories = st.repositories := by
  refine ⟨?_, rfl, ?_, ?_, ?_, rfl, rfl, rfl, rfl⟩
  · intro ind hmem
    rw [remove_individual] at hmem
    have h2 := (List.mem_filter.1 hmem).2
    simpa using h2
  · show (st.families.map _).get? i = _
    rw [List.get?_map, hf]
    obtain ⟨fr, fh, fw, fc, fm⟩ := f
    simp only at hh hw ⊢
    simp [hh, hw]
  · intro j g hg hgh hgw
    show (st.families.map _).get? j = _
    rw [List.get?_map, hg]
    obtain ⟨gr, gh, gw, gc, gm⟩ := g
    simp only at hgh hgw ⊢
    simp [hgh, hgw]
  · intro j g hg
    refine ⟨{ g with
        export_husband := if g.export_husband = x then "" else g.export_husband,
        export_wife := if g.export_wife = x then "" else g.export_wife }, ?_, rfl, rfl, rfl⟩
    show (st.families.map _).get? j = _
    rw [List.get?_map, hg]
    rfl

/-- Claim C2 (witness): the amended statement instantiated on the parsed
state mirroring the repository's removal test, where husband and wife
differ. -/
theorem claim_C2_witness :
    (remove_individual c2wstate "@I1@").families.get? 0 =
      some { c2wfam with export_husband := "" } := by
  exact (claim_C2_amended c2wstate "@I1@" 0 c2wfam (by decide) (by rfl) (by rfl)
    (by decide)).2.2.1

/-- Claim C7 (counterexample): on the file `"x y"` — whose only line does
not tokenize — `verify` does not return a status dictionary at all: the
`int` failure propagates, so the claim's "for every input file, verify()
returns ..." fails. -/
theorem claim_C7_counterexample :
    verifyFile "x y" = Except.error LineError.malformed := by
  rfl

/-- Alignment of `verify` with the claim's scan: on line lists whose
non-blank lines all tokenize, the loop returns the error dictionary of
the first nesting violation — 1-based line number counted over all raw
lines, offending text included — or the ok dictionary when there is
none. -/
theorem verifyLoop_spec (ls : List String) :
    ∀ (cl : Int) (n : Nat),
      (∀ l ∈ ls, l ≠ "" → (parseLineE l).isOk = true) →
      verifyLoop cl n ls =
        Except.ok (match specFirstViolation cl n ls with
          | some (i, t) => ⟨"error", "Invalid level on line " ++ natToStr i ++ ": " ++ t⟩
          | none => ⟨"ok", ""⟩) := by
  induction ls with
  | nil => intro cl n _; rfl
  | cons l rest ih =>
    intro cl n h
    by_cases hb : l = ""
    · rw [verifyLoop, if_pos hb, specFirstViolation, if_pos hb]
      exact ih cl (n + 1) fun t ht => h t (List.mem_cons_of_mem l ht)
    · have hok : (parseLineE l).isOk = true := h l (List.mem_cons_self l rest) hb
      obtain ⟨pl, hpl⟩ : ∃ pl, parseLineE l = Except.ok pl := by
        rcases hE : parseLineE l with e | pl
        · rw [hE] at hok; simp [Except.isOk, Except.toBool] at hok
        · exact ⟨pl, rfl⟩
      have hlev : levelOf l = pl.level := by simp [levelOf, tokOf, hpl, Except.toOption]
      rw [verifyLoop, if_neg hb, hpl, specFirstViolation, if_neg hb]
      simp only [hlev]
      by_cases hv : pl.level > cl + 1
      · rw [if_pos hv, if_pos hv]
      · rw [if_neg hv, if_neg hv]
        exact ih pl.level (n + 1) fun t ht => h t (List.mem_cons_of_mem l ht)

/-- Claim C7 (amended): for every input file whose non-blank lines all
tokenize, `verify` returns the error dictionary at the first non-blank
line whose level exceeds the previous non-blank line's level plus one —
the level before the first non-blank line taken as 0, the 1-based line
number counted over all raw lines, the message naming that number and the
offending text — and the ok dictionary when no such line exists. -/
theorem claim_C7_amended (file : String)
    (h : ∀ l ∈ pySplit '\n' file, l ≠ "" → (parseLineE l).isOk = true) :
    verifyFile file =
      Except.ok (match specFirstViolation 0 0 (pySplit '\n' file) with
        | some (i, t) => ⟨"error", "Invalid level on line " ++ natToStr i ++ ": " ++ t⟩
        | none => ⟨"ok", ""⟩) := by
  exact verifyLoop_spec (pySplit '\n' file) 0 0 h

/-- Claim C7 (witness): the amended statement on a file where a level-2
line directly follows a level-0 line — `verify` reports that line, with
its 1-based number and text. -/
theorem claim_C7_witness :
    verifyFile "0 HEAD\n2 X" = Except.ok ⟨"error", "Invalid level on line 2: 2 X"⟩ := by
  exact claim_C7_amended "0 HEAD\n2 X" (by decide)

theorem pySplitChars_no_sep (sep : Char) (l : List Char) (h : ∀ c ∈ l, c ≠ sep) :
    pySplitChars sep l = [l] := by
  induction l with
  | nil => rfl
  | cons c cs ih =>
    have hcs := ih fun d hd => h d (List.mem_cons_of_mem _ hd)
    have hc : c ≠ sep := h c (List.mem_cons_self c cs)
    simp [pySplitChars, hcs, hc]

theorem pySplitChars_append_sep (sep : Char) (xs ys : List Char) (h : ∀ c ∈ xs, c ≠ sep) :
    pySplitChars sep (xs ++ sep :: ys) = xs :: pySplitChars sep ys := by
  induction xs with
  | nil =>
    rcases hys : pySplitChars sep ys with _ | ⟨g, gs⟩
    · exact absurd hys (pySplitChars_ne_nil sep ys)
    · simp [pySplitChars, hys]
  | cons c cs ih =>
    have hcs := ih fun d hd => h d (List.mem_cons_of_mem _ hd)
    have hc : c ≠ sep := h c (List.mem_cons_self c cs)
    simp [pySplitChars, hcs, hc]

theorem dropWhile_eq_self_of_none {α : Type} (p : α → Bool) (l : List α)
    (h : ∀ c ∈ l, ¬ p c = true) : l.dropWhile p = l := by
  cases l with
  | nil => rfl
  | cons c cs => rw [List.dropWhile_cons, if_neg (h c (List.mem_cons_self c cs))]

theorem stripChars_no_ws (l : List Char) (h : ∀ c ∈ l, ¬ c.isWhitespace = true) :
    stripChars l = l := by
  rw [stripChars, dropWhile_eq_self_of_none _ _ h,
    dropWhile_eq_self_of_none _ _ fun c hc => h c (List.mem_reverse.1 hc),
    List.reverse_reverse]

/-- Claim C8 (confirmed): for an individual whose `NAME` value has the
shape `t1 … /L/` — whitespace-free, slash-free tokens before a single
slash-delimited, whitespace-free surname — construction succeeds,
`get_first_name` returns the first token `t1` and `get_last_name` returns
the surname `L`. -/
theorem claim_C8 (r : RootRecord) (e0 : Element) (es : List Element) (t1 m L : List Char)
    (hfind : findSubIn r.children "NAME" = e0 :: es)
    (hval : e0.pl.value = String.mk (t1 ++ ' ' :: (m ++ '/' :: (L ++ ['/']))))
    (ht1 : ∀ c ∈ t1, ¬ c.isWhitespace = true ∧ c ≠ '/')
    (hm : ∀ c ∈ m, c ≠ '/')
    (hL : ∀ c ∈ L, ¬ c.isWhitespace = true ∧ c ≠ '/') :
    ∃ ind, mkIndividual r = Except.ok ind ∧
      ind.export_first_name = String.mk t1 ∧ ind.export_last_name = String.mk L := by
  have hsp : (' ' : Char).isWhitespace = true := by decide
  have hname : find_name r = String.mk (t1 ++ ' ' :: (m ++ '/' :: (L ++ ['/']))) := by
    rw [find_name, hfind]
    exact hval
  have hregroup : t1 ++ ' ' :: (m ++ '/' :: (L ++ ['/'])) =
      (t1 ++ ' ' :: m) ++ '/' :: (L ++ ['/']) := by
    simp
  have hsplitSlash : pySplit '/' (String.mk (t1 ++ ' ' :: (m ++ '/' :: (L ++ ['/'])))) =
      [String.mk (t1 ++ ' ' :: m), String.mk L, ""] := by
    rw [pySplit]
    show (pySplitChars '/' (t1 ++ ' ' :: (m ++ '/' :: (L ++ ['/'])))).map String.mk = _
    rw [hregroup, pySplitChars_append_sep '/' (t1 ++ ' ' :: m) (L ++ ['/'])
      (by
        intro c hc
        rcases List.mem_append.1 hc with h1 | h1
        · exact (ht1 c h1).2
        · rcases List.mem_cons.1 h1 with h2 | h2
          · rw [h2]; decide
          · exact hm c h2)]
    have : (L ++ ['/'] : List Char) = L ++ '/' :: [] := rfl
    rw [this, pySplitChars_append_sep '/' L [] fun c hc => (hL c hc).2]
    rfl
  have hsplitSpace : pySplitChars ' ' (t1 ++ ' ' :: m) = t1 :: pySplitChars ' ' m :=
    pySplitChars_append_sep ' ' t1 m fun c hc h2 => (ht1 c hc).1 (by rw [h2]; exact hsp)
  have hfn : find_first_name (String.mk (t1 ++ ' ' :: (m ++ '/' :: (L ++ ['/'])))) =
      String.mk t1 := by
    rw [find_first_name, hsplitSlash, List.headD_cons, pySplit]
    show pyStrip (((pySplitChars ' ' (t1 ++ ' ' :: m)).map String.mk).headD "") = _
    rw [hsplitSpace, List.map_cons, List.headD_cons, pyStrip]
    show String.mk (stripChars t1) = _
    rw [stripChars_no_ws t1 fun c hc => (ht1 c hc).1]
  have hln : find_last_name (String.mk (t1 ++ ' ' :: (m ++ '/' :: (L ++ ['/'])))) =
      Except.ok (String.mk L) := by
    rw [find_last_name, hsplitSlash]
    show (if 2 ≤ ([String.mk (t1 ++ ' ' :: m), String.mk L, ""] : List String).length
      then _ else _) = _
    rw [if_pos (by simp)]
    show Except.ok (pyStrip (String.mk L)) = _
    rw [pyStrip]
    show Except.ok (String.mk (stripChars L)) = _
    rw [stripChars_no_ws L fun c hc => (hL c hc).1]
  refine ⟨⟨r, find_name r, find_first_name (find_name r), String.mk L, find_sex r,
    find_media r, init_event r "BIRT", init_event r "DEAT"⟩, ?_, ?_, rfl⟩
  · rw [mkIndividual, hname, hln]
    rfl
  · show find_first_name (find_name r) = _
    rw [hname, hfn]

/-- Claim C8 (witness): the name-splitting statement instantiated on the
literal name `"First Middle /Last/"`. -/
theorem claim_C8_witness :
    ∃ ind, mkIndividual c8root = Except.ok ind ∧
      ind.export_first_name = String.mk "First".data ∧
      ind.export_last_name = String.mk "Last".data := by
  exact claim_C8 c8root c8nameElement [] "First".data "Middle ".data "Last".data
    (by rfl) (by rfl) (by decide) (by decide) (by decide)

/-! ## Supporting lemmas for the round-trip law -/

theorem strConcat_append (xs ys : List String) :
    strConcat (xs ++ ys) = strConcat xs ++ strConcat ys := by
  induction xs with
  | nil => simp [strConcat]
  | cons x xs ih => simp [strConcat, ih, String.append_assoc]

theorem goodLineB_spec (l : String) (h : goodLineB l = true) :
    parseLineE l = Except.ok (tokOf l) ∧ emitLine (tokOf l) = l ∧ 0 ≤ (tokOf l).level := by
  rw [goodLineB] at h
  rcases hE : parseLineE l with e | pl
  · rw [hE] at h; simp at h
  · rw [hE] at h
    simp only [Bool.and_eq_true, beq_iff_eq, decide_eq_true_eq] at h
    have ht : tokOf l = pl := by simp [tokOf, hE, Except.toOption]
    rw [ht]
    exact ⟨rfl, h.1, h.2⟩

theorem nestOk_gt (L : Int) : ∀ (pls : List ParsedLine) (a : Int),
    nestOkB L a pls = true → ∀ p ∈ pls, L < p.level := by
  intro pls
  induction pls with
  | nil => intro a _ p hp; simp at hp
  | cons q rest ih =>
    intro a h p hp
    rw [nestOkB] at h
    simp only [Bool.and_eq_true, decide_eq_true_eq] at h
    rcases List.mem_cons.1 hp with rfl | hp2
    · exact h.1.1
    · exact ih q.level h.2 p hp2

theorem nestOk_append_left (L : Int) : ∀ (xs ys : List ParsedLine) (a : Int),
    nestOkB L a (xs ++ ys) = true → nestOkB L a xs = true := by
  intro xs
  induction xs with
  | nil => intro ys a _; rfl
  | cons q rest ih =>
    intro ys a h
    rw [List.cons_append, nestOkB] at h
    rw [nestOkB]
    simp only [Bool.and_eq_true] at h ⊢
    exact ⟨h.1, ih ys q.level h.2⟩

theorem nestOk_append_opener (L : Int) : ∀ (xs : List ParsedLine) (q : ParsedLine)
    (ys : List ParsedLine) (a : Int),
    nestOkB L a (xs ++ q :: ys) = true → q.level = L + 1 → nestOkB L L (q :: ys) = true := by
  intro xs
  induction xs with
  | nil =>
    intro q ys a h hq
    rw [List.nil_append, nestOkB] at h
    rw [nestOkB]
    simp only [Bool.and_eq_true, decide_eq_true_eq] at h ⊢
    exact ⟨⟨h.1.1, by omega⟩, h.2⟩
  | cons r rest ih =>
    intro q ys a h hq
    rw [List.cons_append, nestOkB] at h
    simp only [Bool.and_eq_true] at h
    exact ih q ys r.level h.2 hq

theorem nestOk_strengthen (L L2 : Int) : ∀ (pls : List ParsedLine) (a : Int),
    nestOkB L a pls = true → (∀ p ∈ pls, L2 < p.level) → nestOkB L2 a pls = true := by
  intro pls
  induction pls with
  | nil => intro a _ _; rfl
  | cons q rest ih =>
    intro a h h2
    rw [nestOkB] at h ⊢
    simp only [Bool.and_eq_true, decide_eq_true_eq] at h ⊢
    exact ⟨⟨h2 q (List.mem_cons_self q rest), h.1.2⟩,
      ih q.level h.2 fun p hp => h2 p (List.mem_cons_of_mem _ hp)⟩

theorem chain_append_right : ∀ (xs : List Int) (n : Int) (ys : List Int) (a : Int),
    chainB a (xs ++ n :: ys) = true → chainB n ys = true := by
  intro xs
  induction xs with
  | nil =>
    intro n ys a h
    rw [List.nil_append, chainB] at h
    simp only [Bool.and_eq_true] at h
    exact h.2
  | cons x rest ih =>
    intro n ys a h
    rw [List.cons_append, chainB] at h
    simp only [Bool.and_eq_true] at h
    exact ih n ys x h.2

theorem chain_append_left : ∀ (xs ys : List Int) (a : Int),
    chainB a (xs ++ ys) = true → chainB a xs = true := by
  intro xs
  induction xs with
  | nil => intro ys a _; rfl
  | cons x rest ih =>
    intro ys a h
    rw [List.cons_append, chainB] at h
    rw [chainB]
    simp only [Bool.and_eq_true] at h ⊢
    exact ⟨h.1, ih ys x h.2⟩

theorem chain_to_nest : ∀ (toks : List ParsedLine) (a : Int),
    chainB a (toks.map ParsedLine.level) = true → (∀ p ∈ toks, 0 < p.level) →
    nestOkB 0 a toks = true := by
  intro toks
  induction toks with
  | nil => intro a _ _; rfl
  | cons q rest ih =>
    intro a h h2
    rw [List.map_cons, chainB] at h
    rw [nestOkB]
    simp only [Bool.and_eq_true, decide_eq_true_eq] at h ⊢
    exact ⟨⟨h2 q (List.mem_cons_self q rest), h.1⟩,
      ih q.level h.2 fun p hp => h2 p (List.mem_cons_of_mem _ hp)⟩

theorem mem_takeWhile_sat {α : Type} (p : α → Bool) : ∀ (l : List α) (a : α),
    a ∈ l.takeWhile p → p a = true := by
  intro l
  induction l with
  | nil => intro a ha; simp [List.takeWhile] at ha
  | cons x xs ih =>
    intro a ha
    rw [List.takeWhile_cons] at ha
    by_cases hx : p x = true
    · rw [if_pos hx] at ha
      rcases List.mem_cons.1 ha with rfl | h2
      · exact hx
      · exact ih a h2
    · rw [if_neg hx] at ha; simp at ha

theorem dropWhile_first_false {α : Type} (p : α → Bool) : ∀ (l : List α) (q : α) (ys : List α),
    l.dropWhile p = q :: ys → p q = false := by
  intro l
  induction l with
  | nil => intro q ys h; simp [List.dropWhile] at h
  | cons x xs ih =>
    intro q ys h
    rw [List.dropWhile_cons] at h
    by_cases hx : p x = true
    · rw [if_pos hx] at h; exact ih q ys h
    · rw [if_neg hx] at h
      cases h
      exact Bool.eq_false_iff.2 fun hh => hx hh

theorem build_emit : ∀ (fuel : Nat) (pls : List ParsedLine) (L : Int),
    pls.length < fuel → nestOkB L L pls = true →
    emitElements (buildChildrenAux fuel L pls) =
      strConcat (pls.map fun p => emitLine p ++ "\n") := by
  intro fuel
  induction fuel with
  | zero => intro pls L h _; exact absurd h (Nat.not_lt_zero _)
  | succ fuel ih =>
    intro pls L hlen hnest
    cases pls with
    | nil => rfl
    | cons p rest =>
      rw [nestOkB] at hnest
      simp only [Bool.and_eq_true, decide_eq_true_eq] at hnest
      obtain ⟨⟨hgt, hle⟩, hrest⟩ := hnest
      have hpl : p.level = L + 1 := by omega
      have hrest1 : nestOkB L (L + 1) rest = true := by rw [← hpl]; exact hrest
      have hsplit : rest.takeWhile (fun q => decide (q.level ≠ L + 1)) ++
          rest.dropWhile (fun q => decide (q.level ≠ L + 1)) = rest :=
        List.takeWhile_append_dropWhile _ _
      have hlen2 : rest.length < fuel := by
        have := hlen
        simp only [List.length_cons] at this
        omega
      have htwlen : (rest.takeWhile fun q => decide (q.level ≠ L + 1)).length < fuel :=
        Nat.lt_of_le_of_lt (List.takeWhile_sublist _).length_le hlen2
      have hdwlen : (rest.dropWhile fun q => decide (q.level ≠ L + 1)).length < fuel :=
        Nat.lt_of_le_of_lt (List.dropWhile_sublist _).length_le hlen2
      have htw_nest : nestOkB (L + 1) (L + 1)
          (rest.takeWhile fun q => decide (q.level ≠ L + 1)) = true := by
        have h1 : nestOkB L (L + 1) (rest.takeWhile fun q => decide (q.level ≠ L + 1)) = true := by
          refine nestOk_append_left L _ (rest.dropWhile fun q => decide (q.level ≠ L + 1)) _ ?_
          rw [hsplit]; exact hrest1
        refine nestOk_strengthen L (L + 1) _ (L + 1) h1 ?_
        intro q hq
        have hne : q.level ≠ L + 1 := of_decide_eq_true (mem_takeWhile_sat _ rest q hq)
        have hmem : q ∈ rest := by
          rw [← hsplit]; exact List.mem_append_left _ hq
        have := nestOk_gt L rest (L + 1) hrest1 q hmem
        omega
      have hdw_nest : nestOkB L L
          (rest.dropWhile fun q => decide (q.level ≠ L + 1)) = true := by
        rcases hdwE : rest.dropWhile (fun q => decide (q.level ≠ L + 1)) with _ | ⟨q, ys⟩
        · rw [hdwE]; rfl
        · rw [hdwE]
          have hq_false := dropWhile_first_false _ rest q ys hdwE
          have hq : q.level = L + 1 := by
            have := of_decide_eq_false hq_false
            omega
          refine nestOk_append_opener L (rest.takeWhile fun q => decide (q.level ≠ L + 1))
            q ys (L + 1) ?_ hq
          rw [← hdwE, hsplit]
          exact hrest1
      rw [buildChildrenAux, if_pos hpl, emitElements, emitElement,
        ih _ (L + 1) htwlen htw_nest, ih _ L hdwlen hdw_nest,
        List.map_cons, strConcat, String.append_assoc]
      conv_rhs => rw [← hsplit]
      rw [List.map_append, strConcat_append]

theorem parseLine_xref_at (l : String) (pl : ParsedLine) (h : parseLineE l = Except.ok pl) :
    ∀ x, pl.xref = some x → startsWithAt x = true := by
  intro x hx
  rcases hs : pySplit ' ' l with _ | ⟨t0, rest⟩
  · rw [parseLineE, hs] at h; exact absurd h (by simp)
  cases rest with
  | nil =>
    simp only [parseLineE, hs] at h
    rcases hp : pyInt t0 with _ | n <;> simp only [hp] at h <;> exact absurd h (by simp)
  | cons t1 rest2 =>
    cases rest2 with
    | nil =>
      simp only [parseLineE, hs] at h
      rcases hp : pyInt t0 with _ | n
      · simp only [hp] at h; exact absurd h (by simp)
      · simp only [hp] at h
        by_cases hat : startsWithAt t1 = true
        · rw [if_pos hat] at h; exact absurd h (by simp)
        · rw [if_neg hat] at h
          injection h with h1
          rw [← h1] at hx
          simp at hx
    | cons tg rest3 =>
      simp only [parseLineE, hs] at h
      rcases hp : pyInt t0 with _ | n
      · simp only [hp] at h; exact absurd h (by simp)
      · simp only [hp] at h
        by_cases hat : startsWithAt t1 = true
        · rw [if_pos hat] at h
          injection h with h1
          rw [← h1] at hx
          simp only at hx
          rw [Option.some_inj] at hx
          rw [← hx]
          exact hat
        · rw [if_neg hat] at h
          injection h with h1
          rw [← h1] at hx
          simp at hx

theorem startsWithAt_ne_empty (x : String) (h : startsWithAt x = true) : x ≠ "" := by
  intro he
  subst he
  exact absurd h (by decide)

theorem mapM_parseLine_ok : ∀ (buf : List String),
    (∀ l ∈ buf, goodLineB l = true) →
    buf.mapM parseLineE = Except.ok (buf.map tokOf) := by
  intro buf
  induction buf with
  | nil => intro _; rfl
  | cons l rest ih =>
    intro h
    rw [List.mapM_cons, (goodLineB_spec l (h l (List.mem_cons_self l rest))).1,
      ih fun t ht => h t (List.mem_cons_of_mem _ ht)]
    rfl

theorem emitRoot_line (cur : ParsedLine) (rx : Option String) (toks : List ParsedLine)
    (hseg : xrefSeg rx = (match cur.xref with | some x => x ++ " " | none => ""))
    (hcv : cur.value = "") :
    emitRoot (mkRootRecord cur.level rx cur.tag toks) =
      emitLine cur ++ "\n" ++ emitElements (buildChildren cur.level toks) := by
  rw [emitRoot, mkRootRecord, emitLine, hcv, hseg]
  simp [String.append_assoc]

theorem emitRoot_group (cur : ParsedLine) (curLine : String) (buf : List String)
    (rx : Option String)
    (hseg : xrefSeg rx = (match cur.xref with | some x => x ++ " " | none => ""))
    (hemit : emitLine cur = curLine)
    (hlv : cur.level = 0) (hcv : cur.value = "")
    (hbuf : ∀ l ∈ buf, goodLineB l = true)
    (hnest : nestOkB 0 0 (buf.map tokOf) = true) :
    emitRoot (mkRootRecord cur.level rx cur.tag (buf.map tokOf)) =
      lineNL curLine ++ strConcat (buf.map lineNL) := by
  rw [emitRoot_line cur rx _ hseg hcv, hlv, buildChildren,
    build_emit _ _ 0 (Nat.lt_succ_self _) hnest, hemit, List.map_map]
  have hmap : (buf.map fun l => emitLine (tokOf l) ++ "\n") = buf.map lineNL := by
    refine List.map_congr_left ?_
    intro l hl
    rw [lineNL, (goodLineB_spec l (hbuf l hl)).2.1]
  rw [Function.comp_def, hmap, lineNL]

theorem xrefSeg_of_parsed (cur : ParsedLine) (curLine : String)
    (hcl : parseLineE curLine = Except.ok cur) :
    xrefSeg cur.xref = (match cur.xref with | some x => x ++ " " | none => "") := by
  rcases hx : cur.xref with _ | x
  · rfl
  · have hne := startsWithAt_ne_empty x (parseLine_xref_at curLine cur hcl x hx)
    rw [xrefSeg, if_neg hne]

theorem tagPhase_seven (t : String) (h : tagPhase t = some 7) : t = "TRLR" := by
  rw [tagPhase] at h
  split_ifs at h with h1 h2 h3 h4 h5 h6 h7 <;> simp_all

theorem stepPhase_seven (s : Nat) (t : String) (h : stepPhase s t = some 7) : t = "TRLR" := by
  rw [stepPhase] at h
  rcases ht : tagPhase t with _ | p
  · rw [ht] at h; exact absurd h (by simp)
  · simp only [ht] at h
    rw [tagPhase] at ht
    split_ifs at ht with e1 e2 e3 e4 e5 e6 e7
    · injection ht with hv; rw [← hv] at h; simp at h
    · injection ht with hv; rw [← hv] at h; simp at h
    · injection ht with hv; rw [← hv] at h; simp at h
    · injection ht with hv; rw [← hv] at h; simp at h
    · injection ht with hv; rw [← hv] at h; simp at h
    · injection ht with hv; rw [← hv] at h; simp at h
    · exact e7

theorem stepPhase7_none (t : String) : stepPhase 7 t = none := by
  rcases ht : tagPhase t with _ | p
  · simp [stepPhase, ht]
  · rw [stepPhase]
    simp only [ht]
    rw [tagPhase] at ht
    split_ifs at ht with e1 e2 e3 e4 e5 e6 e7
    · injection ht with hv; rw [← hv]; simp
    · injection ht with hv; rw [← hv]; simp
    · injection ht with hv; rw [← hv]; simp
    · injection ht with hv; rw [← hv]; simp
    · injection ht with hv; rw [← hv]; simp
    · injection ht with hv; rw [← hv]; simp
    · injection ht with hv; rw [← hv]; simp

theorem runPhase_cons (s : Nat) (t : String) (ts : List String) (x : Nat)
    (h : runPhase s (t :: ts) = some x) :
    ∃ s2, stepPhase s t = some s2 ∧ runPhase s2 ts = some x := by
  rw [runPhase] at h
  rcases hst : stepPhase s t with _ | s2
  · rw [hst] at h; exact absurd h (by simp)
  · rw [hst] at h; exact ⟨s2, rfl, h⟩

theorem runPhase_seven (ts : List String) (x : Nat) (h : runPhase 7 ts = some x) :
    ts = [] := by
  cases ts with
  | nil => rfl
  | cons t ts2 =>
    rw [runPhase, stepPhase7_none] at h
    exact absurd h (by simp)

theorem mkIndividual_root (r : RootRecord) (ind : GedcomIndividual)
    (h : mkIndividual r = Except.ok ind) : ind.root = r := by
  rw [mkIndividual] at h
  rcases hl : find_last_name (find_name r) with e | v
  · rw [hl] at h; exact absurd h (by simp [Bind.bind, Except.bind])
  · rw [hl] at h
    simp only [Bind.bind, Except.bind] at h
    injection h with h1
    rw [← h1]

theorem stepPhase_facts (s p : Nat) (t : String) (h : stepPhase s t = some p) :
    tagPhase t = some p ∧ (p = 1 → s = 0) ∧ (2 ≤ p → p ≤ 6 → s ≤ p) := by
  rw [stepPhase] at h
  rcases ht : tagPhase t with _ | q
  · rw [ht] at h; exact absurd h (by simp)
  · simp only [ht] at h
    by_cases h1 : q = 1
    · subst h1
      rw [if_pos rfl] at h
      by_cases hs : s = 0
      · rw [if_pos hs] at h
        injection h with hv
        exact ⟨by rw [← hv], fun _ => hs, fun h2 _ => by omega⟩
      · rw [if_neg hs] at h; exact absurd h (by simp)
    · rw [if_neg h1] at h
      by_cases h7 : q = 7
      · subst h7
        rw [if_pos rfl] at h
        by_cases hs : s ≤ 6
        · rw [if_pos hs] at h
          injection h with hv
          exact ⟨by rw [← hv], fun hh => by omega, fun _ hh => by omega⟩
        · rw [if_neg hs] at h; exact absurd h (by simp)
      · rw [if_neg h7] at h
        by_cases hs : s ≤ q
        · rw [if_pos hs] at h
          injection h with hv
          exact ⟨by rw [← hv], fun hh => by omega, fun _ _ => hv ▸ hs⟩
        · rw [if_neg hs] at h; exact absurd h (by simp)

theorem createElement_emit (cur : ParsedLine) (curLine : String) (buf : List String)
    (st st2 : ParserState) (s p : Nat)
    (hcl : parseLineE curLine = Except.ok cur) (hemit : emitLine cur = curLine)
    (hlv : cur.level = 0) (hcv : cur.value = "")
    (hhx : cur.tag = "HEAD" ∨ cur.tag = "TRLR" → cur.xref = none)
    (hbuf : ∀ l ∈ buf, goodLineB l = true)
    (hnest : nestOkB 0 0 (buf.map tokOf) = true)
    (hstep : stepPhase s cur.tag = some p) (hp7 : p ≠ 7)
    (hinv : phaseInv s st)
    (hce : createElement cur buf st = Except.ok st2) :
    emittedSoFar st2 = emittedSoFar st ++ (lineNL curLine ++ strConcat (buf.map lineNL)) ∧
    phaseInv p st2 := by
  obtain ⟨htagp, hone, hrank⟩ := stepPhase_facts s p cur.tag hstep
  have hgroup : emitRoot (mkRootRecord cur.level cur.xref cur.tag (buf.map tokOf)) =
      lineNL curLine ++ strConcat (buf.map lineNL) :=
    emitRoot_group cur curLine buf cur.xref (xrefSeg_of_parsed cur curLine hcl)
      hemit hlv hcv hbuf hnest
  by_cases hI : cur.tag = "INDI"
  · have hp : p = 2 := by
      rw [hI] at htagp
      have h0 : tagPhase "INDI" = some 2 := by decide
      rw [h0] at htagp
      injection htagp with hv
      omega
    have hs2 : s ≤ 2 := by have := hrank (by omega) (by omega); omega
    have hfam : st.families = [] := hinv.2.2.1 (by omega)
    have hsrc : st.sources = [] := hinv.2.2.2.1 (by omega)
    have hobj : st.objects = [] := hinv.2.2.2.2.1 (by omega)
    have hrep : st.repositories = [] := hinv.2.2.2.2.2 (by omega)
    rw [createElement, if_pos hI, mapM_parseLine_ok buf hbuf] at hce
    simp only [Bind.bind, Except.bind] at hce
    rcases hmk : mkIndividual (mkRootRecord cur.level cur.xref cur.tag (buf.map tokOf))
      with e | ind
    · rw [hmk] at hce; exact absurd hce (by simp)
    · rw [hmk] at hce
      injection hce with hv
      subst hv
      have hroot := mkIndividual_root _ _ hmk
      subst hp
      refine ⟨?_, ?_⟩
      · simp [emittedSoFar, hfam, hsrc, hobj, hrep, hroot, hgroup, strConcat_append,
          strConcat, String.append_assoc]
      · exact ⟨fun hh => by omega, fun hh => by omega, fun _ => hfam, fun _ => hsrc,
          fun _ => hobj, fun _ => hrep⟩
  by_cases hF : cur.tag = "FAM"
  · have hp : p = 3 := by
      rw [hF] at htagp
      have h0 : tagPhase "FAM" = some 3 := by decide
      rw [h0] at htagp
      injection htagp with hv
      omega
    have hs3 : s ≤ 3 := by have := hrank (by omega) (by omega); omega
    have hsrc : st.sources = [] := hinv.2.2.2.1 (by omega)
    have hobj : st.objects = [] := hinv.2.2.2.2.1 (by omega)
    have hrep : st.repositories = [] := hinv.2.2.2.2.2 (by omega)
    rw [createElement, if_neg hI, if_pos hF, mapM_parseLine_ok buf hbuf] at hce
    simp only [Bind.bind, Except.bind] at hce
    injection hce with hv
    subst hv
    subst hp
    refine ⟨?_, ?_⟩
    · simp [emittedSoFar, hsrc, hobj, hrep, mkFamily, hgroup, strConcat_append,
        strConcat, String.append_assoc]
    · exact ⟨fun hh => by omega, fun hh => by omega, fun hh => by omega, fun _ => hsrc,
        fun _ => hobj, fun _ => hrep⟩
  by_cases hH : cur.tag = "HEAD"
  · have hp : p = 1 := by
      rw [hH] at htagp
      have h0 : tagPhase "HEAD" = some 1 := by decide
      rw [h0] at htagp
      injection htagp with hv
      omega
    have hs0 : s = 0 := hone hp
    have hhead : st.head = none := hinv.1 (by omega)
    have hind : st.individuals = [] := hinv.2.1 (by omega)
    have hfam : st.families = [] := hinv.2.2.1 (by omega)
    have hsrc : st.sources = [] := hinv.2.2.2.1 (by omega)
    have hobj : st.objects = [] := hinv.2.2.2.2.1 (by omega)
    have hrep : st.repositories = [] := hinv.2.2.2.2.2 (by omega)
    have hseg : xrefSeg (some "") =
        (match cur.xref with | some x => x ++ " " | none => "") := by
      rw [hhx (Or.inl hH)]
      rfl
    have hgroup2 : emitRoot (mkRootRecord cur.level (some "") cur.tag (buf.map tokOf)) =
        lineNL curLine ++ strConcat (buf.map lineNL) :=
      emitRoot_group cur curLine buf (some "") hseg hemit hlv hcv hbuf hnest
    rw [createElement, if_neg hI, if_neg hF, if_pos hH, mapM_parseLine_ok buf hbuf] at hce
    simp only [Bind.bind, Except.bind] at hce
    injection hce with hv
    subst hv
    subst hp
    refine ⟨?_, ?_⟩
    · simp [emittedSoFar, hhead, hind, hfam, hsrc, hobj, hrep, hgroup2, strConcat,
        String.append_assoc]
    · exact ⟨fun hh => by omega, fun _ => hind, fun _ => hfam, fun _ => hsrc,
        fun _ => hobj, fun _ => hrep⟩
  by_cases hS : cur.tag = "SOUR"
  · have hp : p = 4 := by
      rw [hS] at htagp
      have h0 : tagPhase "SOUR" = some 4 := by decide
      rw [h0] at htagp
      injection htagp with hv
      omega
    have hs4 : s ≤ 4 := by have := hrank (by omega) (by omega); omega
    have hobj : st.objects = [] := hinv.2.2.2.2.1 (by omega)
    have hrep : st.repositories = [] := hinv.2.2.2.2.2 (by omega)
    rw [createElement, if_neg hI, if_neg hF, if_neg hH, if_pos hS,
      mapM_parseLine_ok buf hbuf] at hce
    simp only [Bind.bind, Except.bind] at hce
    injection hce with hv
    subst hv
    subst hp
    refine ⟨?_, ?_⟩
    · simp [emittedSoFar, hobj, hrep, hgroup, strConcat_append, strConcat,
        String.append_assoc]
    · exact ⟨fun hh => by omega, fun hh => by omega, fun hh => by omega, fun hh => by omega,
        fun _ => hobj, fun _ => hrep⟩
  by_cases hR : cur.tag = "REPO"
  · have hp : p = 6 := by
      rw [hR] at htagp
      have h0 : tagPhase "REPO" = some 6 := by decide
      rw [h0] at htagp
      injection htagp with hv
      omega
    rw [createElement, if_neg hI, if_neg hF, if_neg hH, if_neg hS, if_pos hR,
      mapM_parseLine_ok buf hbuf] at hce
    simp only [Bind.bind, Except.bind] at hce
    injection hce with hv
    subst hv
    subst hp
    refine ⟨?_, ?_⟩
    · simp [emittedSoFar, hgroup, strConcat_append, strConcat, String.append_assoc]
    · exact ⟨fun hh => by omega, fun hh => by omega, fun hh => by omega, fun hh => by omega,
        fun hh => by omega, fun hh => by omega⟩
  by_cases hO : cur.tag = "OBJE"
  · have hp : p = 5 := by
      rw [hO] at htagp
      have h0 : tagPhase "OBJE" = some 5 := by decide
      rw [h0] at htagp
      injection htagp with hv
      omega
    have hrep : st.repositories = [] := hinv.2.2.2.2.2 (by omega)
    rw [createElement, if_neg hI, if_neg hF, if_neg hH, if_neg hS, if_neg hR, if_pos hO,
      mapM_parseLine_ok buf hbuf] at hce
    simp only [Bind.bind, Except.bind] at hce
    injection hce with hv
    subst hv
    subst hp
    refine ⟨?_, ?_⟩
    · simp [emittedSoFar, hrep, hgroup, strConcat_append, strConcat, String.append_assoc]
    · exact ⟨fun hh => by omega, fun hh => by omega, fun hh => by omega, fun hh => by omega,
        fun hh => by omega, fun _ => hrep⟩
  · exfalso
    rw [tagPhase] at htagp
    rw [if_neg hH, if_neg hI, if_neg hF, if_neg hS, if_neg hO, if_neg hR] at htagp
    by_cases hT : cur.tag = "TRLR"
    · rw [if_pos hT] at htagp
      injection htagp with hv
      exact hp7 (by omega)
    · rw [if_neg hT] at htagp
      exact absurd htagp (by simp)

theorem exportGedcom_eq (st : ParserState) :
    exportGedcom st = emittedSoFar st ++ "0 TRLR\n" := rfl

theorem rootLines_cons_pos (l : String) (X : List String) (h : levelOf l = 0) :
    rootLines (l :: X) = l :: rootLines X := by
  simp [rootLines, List.filter_cons, h]

theorem rootLines_cons_neg (l : String) (X : List String) (h : ¬ levelOf l = 0) :
    rootLines (l :: X) = rootLines X := by
  simp [rootLines, List.filter_cons, beq_iff_eq, h]

theorem parseLoop_emit : ∀ (rem : List String) (cur : ParsedLine) (curLine : String)
    (buf : List String) (st stF : ParserState) (s p : Nat),
    (∀ l ∈ rem, l ≠ "" → goodLineB l = true) →
    parseLineE curLine = Except.ok cur →
    emitLine cur = curLine →
    cur.level = 0 → cur.value = "" →
    (cur.tag = "HEAD" ∨ cur.tag = "TRLR" → cur.xref = none) →
    (∀ l ∈ rem, l ≠ "" → levelOf l = 0 →
      (tokOf l).value = "" ∧
      ((tokOf l).tag = "HEAD" ∨ (tokOf l).tag = "TRLR" → (tokOf l).xref = none)) →
    (∀ l ∈ buf, goodLineB l = true ∧ 0 < levelOf l) →
    chainB 0 ((buf ++ rem.filter (fun x => decide (x ≠ ""))).map levelOf) = true →
    stepPhase s cur.tag = some p →
    runPhase p ((rootLines (rem.filter (fun x => decide (x ≠ "")))).map
      (fun l => (tokOf l).tag)) = some 7 →
    phaseInv s st →
    (cur.tag = "TRLR" → buf = [] ∧ rem.filter (fun x => decide (x ≠ "")) = []) →
    (∀ x, (rem.filter (fun x => decide (x ≠ ""))).getLast? = some x → levelOf x = 0) →
    parseLoop cur buf st rem = Except.ok stF →
    exportGedcom stF =
      emittedSoFar st ++ (lineNL curLine ++ strConcat (buf.map lineNL) ++
        strConcat ((rem.filter (fun x => decide (x ≠ ""))).map lineNL)) := by
  intro rem
  induction rem with
  | nil =>
    intro cur curLine buf st stF s p hg hcl hemit hlv hcv hhx hroots hbuf hchain hstep hrun
      hinv htrlr hend hloop
    have hp7 : p = 7 := by
      simp only [List.filter_nil, rootLines, List.map_nil, runPhase] at hrun
      simpa using hrun
    have hT : cur.tag = "TRLR" := stepPhase_seven s cur.tag (hp7 ▸ hstep)
    obtain ⟨hbe, _⟩ := htrlr hT
    subst hbe
    have hst : stF = st := by
      rw [parseLoop, createElement] at hloop
      rw [if_neg (by rw [hT]; decide), if_neg (by rw [hT]; decide),
        if_neg (by rw [hT]; decide), if_neg (by rw [hT]; decide),
        if_neg (by rw [hT]; decide), if_neg (by rw [hT]; decide)] at hloop
      injection hloop with hv
      exact hv.symm
    subst hst
    have hline : curLine = "0 TRLR" := by
      rw [← hemit, emitLine, hlv, hcv, hT, hhx (Or.inr hT)]
      decide
    rw [exportGedcom_eq, hline]
    simp [lineNL, strConcat]
  | cons l rest ih =>
    intro cur curLine buf st stF s p hg hcl hemit hlv hcv hhx hroots hbuf hchain hstep hrun
      hinv htrlr hend hloop
    by_cases hbl : l = ""
    · rw [parseLoop, if_pos hbl] at hloop
      have hfeq : (l :: rest).filter (fun x => decide (x ≠ "")) =
          rest.filter (fun x => decide (x ≠ "")) := by
        simp [List.filter_cons, hbl]
      rw [hfeq] at hchain hrun htrlr hend ⊢
      exact ih cur curLine buf st stF s p
        (fun t ht hne => hg t (List.mem_cons_of_mem _ ht) hne) hcl hemit hlv hcv hhx
        (fun t ht => hroots t (List.mem_cons_of_mem _ ht)) hbuf hchain hstep hrun hinv
        htrlr hend hloop
    · have hgood : goodLineB l = true := hg l (List.mem_cons_self _ _) hbl
      obtain ⟨hplE, hplEmit, hplGe⟩ := goodLineB_spec l hgood
      rw [parseLoop, if_neg hbl] at hloop
      simp only [hplE] at hloop
      have hfeq : (l :: rest).filter (fun x => decide (x ≠ "")) =
          l :: rest.filter (fun x => decide (x ≠ "")) := by
        simp [List.filter_cons, hbl]
      rw [hfeq] at hchain hrun htrlr hend ⊢
      by_cases hlev : (tokOf l).level > 0
      · rw [if_pos hlev] at hloop
        have hfin := ih cur curLine (buf ++ [l]) st stF s p
          (fun t ht hne => hg t (List.mem_cons_of_mem _ ht) hne) hcl hemit hlv hcv hhx
          (fun t ht => hroots t (List.mem_cons_of_mem _ ht))
          (by
            intro t ht
            rcases List.mem_append.1 ht with h1 | h1
            · exact hbuf t h1
            · rcases List.mem_cons.1 h1 with rfl | h2
              · exact ⟨hgood, hlev⟩
              · simp at h2)
          (by
            rw [List.append_assoc]
            exact hchain)
          hstep
          (by
            rw [rootLines_cons_neg l _ (by rw [levelOf]; omega)] at hrun
            exact hrun)
          hinv
          (by
            intro hT
            exact absurd (htrlr hT).2 (by simp))
          (by
            intro x hx
            rcases hfr : rest.filter (fun x => decide (x ≠ "")) with _ | ⟨c, cs⟩
            · rw [hfr] at hx; simp at hx
            · apply hend x
              rw [hfr, List.getLast?_cons_cons]
              rw [hfr] at hx
              exact hx)
          hloop
        rw [hfin, List.map_append, strConcat_append, List.map_cons, strConcat,
          List.map_cons, strConcat]
        simp [lineNL, strConcat, String.append_assoc]
      · rw [if_neg hlev] at hloop
        have hl0 : levelOf l = 0 := by rw [levelOf]; omega
        rcases hce : createElement cur buf st with e | st2
        · rw [hce] at hloop; exact absurd hloop (by simp)
        · simp only [hce] at hloop
          have hcurT : cur.tag ≠ "TRLR" := by
            intro hT
            exact absurd (htrlr hT).2 (by simp)
          have hp7 : p ≠ 7 := fun h => hcurT (stepPhase_seven s cur.tag (h ▸ hstep))
          rw [List.map_append, List.map_cons] at hchain
          rw [hl0] at hchain
          have hbufchain : chainB 0 (buf.map levelOf) = true :=
            chain_append_left _ _ _ hchain
          have hrestchain : chainB 0 ((rest.filter (fun x => decide (x ≠ ""))).map levelOf)
              = true := chain_append_right _ 0 _ _ hchain
          have hnest : nestOkB 0 0 (buf.map tokOf) = true := by
            apply chain_to_nest
            · rw [List.map_map]
              exact hbufchain
            · intro q hq
              obtain ⟨t, ht, rfl⟩ := List.mem_map.1 hq
              exact (hbuf t ht).2
          have hemitCE := createElement_emit cur curLine buf st st2 s p hcl hemit hlv hcv
            hhx (fun t ht => (hbuf t ht).1) hnest hstep hp7 hinv hce
          rw [rootLines_cons_pos l _ hl0, List.map_cons] at hrun
          obtain ⟨p2, hstep2, hrun3⟩ := runPhase_cons p _ _ _ hrun
          obtain ⟨hval2, hhx2⟩ := hroots l (List.mem_cons_self _ _) hbl hl0
          have hfin := ih (tokOf l) l [] st2 stF p p2
            (fun t ht hne => hg t (List.mem_cons_of_mem _ ht) hne) hplE hplEmit hl0 hval2
            hhx2 (fun t ht => hroots t (List.mem_cons_of_mem _ ht))
            (by intro t ht; simp at ht)
            (by rw [List.nil_append]; exact hrestchain)
            hstep2 hrun3 hemitCE.2
            (by
              intro hT2
              refine ⟨rfl, ?_⟩
              have hp27 : p2 = 7 := by
                rw [hT2, stepPhase, (by decide : tagPhase "TRLR" = some 7)] at hstep2
                simp at hstep2
                omega
              have hmapnil : (rootLines (rest.filter (fun x => decide (x ≠ "")))).map
                  (fun t => (tokOf t).tag) = [] :=
                runPhase_seven _ _ (hp27 ▸ hrun3)
              have hrlnil : rootLines (rest.filter (fun x => decide (x ≠ ""))) = [] :=
                List.map_eq_nil_iff.1 hmapnil
              rcases hfr : rest.filter (fun x => decide (x ≠ "")) with _ | ⟨c, cs⟩
              · rfl
              · exfalso
                have hlast : (c :: cs).getLast? = some ((c :: cs).getLast (by simp)) :=
                  List.getLast?_eq_getLast _ (by simp)
                have hx0 : levelOf ((c :: cs).getLast (by simp)) = 0 := by
                  apply hend
                  rw [hfr, List.getLast?_cons_cons]
                  exact hlast
                have hmem : (c :: cs).getLast (by simp) ∈
                    rest.filter (fun x => decide (x ≠ "")) := by
                  rw [hfr]
                  exact List.getLast_mem _
                have : (c :: cs).getLast (by simp) ∈
                    rootLines (rest.filter (fun x => decide (x ≠ ""))) := by
                  rw [rootLines, List.mem_filter]
                  exact ⟨hmem, by simp [hx0]⟩
                rw [hrlnil] at this
                simp at this)
            (by
              intro x hx
              rcases hfr : rest.filter (fun x => decide (x ≠ "")) with _ | ⟨c, cs⟩
              · rw [hfr] at hx; simp at hx
              · apply hend x
                rw [hfr, List.getLast?_cons_cons]
                rw [hfr] at hx
                exact hx)
            hloop
          rw [hfin, hemitCE.1, List.map_cons, strConcat]
          simp [lineNL, strConcat, String.append_assoc]

/-- Claim C1 (counterexample): the input `c1text` — a family record
preceding an individual record — is accepted by the parser, but the
`gedcom` export walks the collections in a fixed order, so the exported
text differs from the input even after blank-line normalization. -/
theorem claim_C1_counterexample :
    parseFile c1text = Except.ok c1state ∧
    exportGedcom c1state = "0 @I1@ INDI\n1 NAME A /B/\n0 @F1@ FAM\n0 TRLR\n" ∧
    exportGedcom c1state ≠ c1text ∧
    exportGedcom c1state ≠ normText c1text := by
  refine ⟨?_, ?_, ?_, ?_⟩
  · rfl
  · rfl
  · decide
  · decide

/-- Claim C1 (amended): the `gedcom` export emits every top-level record
depth-first grouped by collection — header, individuals, families,
sources, objects, repositories — and terminates the output with
`0 TRLR`; for every input accepted by the parser that is canonical
(non-blank good lines, valid nesting, valueless top-level lines with no
xref on header or trailer, records already in collection order, a final
trailer line) the export reproduces the input up to blank-line
normalization. -/
theorem claim_C1_amended (file : String) (st : ParserState)
    (hparse : parseFile file = Except.ok st)
    (hcanon : canonicalB file = true) :
    exportGedcom st = normText file ∧
    gedExport st "gedcom" true = Except.ok (normText file) := by
  simp only [canonicalB, Bool.and_eq_true] at hcanon
  obtain ⟨⟨⟨⟨⟨⟨h1, h2⟩, h3⟩, h4⟩, h5⟩, h6⟩, h7⟩ := hcanon
  replace h1 := of_decide_eq_true h1
  replace h2 := List.all_eq_true.1 h2
  replace h4 := List.all_eq_true.1 h4
  replace h5 := eq_of_beq h5
  replace h6 := eq_of_beq h6
  replace h7 := eq_of_beq h7
  rcases hls : pySplit '\n' file with _ | ⟨l0, ltail⟩
  · exact absurd hls (pySplit_ne_nil _ _)
  rw [hls, List.headD_cons] at h1
  have hnb : nbLines file = l0 :: ltail.filter (fun x => decide (x ≠ "")) := by
    rw [nbLines, hls, List.filter_cons, if_pos (by simpa using h1)]
  rw [hnb] at h2 h3 h4 h5 h6 h7
  rw [List.headD_cons] at h6
  have hroot_props : ∀ l, (l ∈ l0 :: ltail.filter (fun x => decide (x ≠ ""))) →
      levelOf l = 0 →
      (tokOf l).value = "" ∧
      ((tokOf l).tag = "HEAD" ∨ (tokOf l).tag = "TRLR" → (tokOf l).xref = none) := by
    intro l hl h0
    have hb := h4 l hl
    rw [Bool.or_eq_true] at hb
    rcases hb with hb | hb
    · rw [Bool.not_eq_true', beq_eq_false_iff_ne] at hb
      exact absurd h0 hb
    · rw [Bool.and_eq_true] at hb
      obtain ⟨hv, hx⟩ := hb
      refine ⟨of_decide_eq_true hv, ?_⟩
      intro htag
      rw [Bool.or_eq_true] at hx
      rcases hx with hx | hx
      · rw [Bool.not_eq_true', Bool.or_eq_false_iff] at hx
        obtain ⟨hx1, hx2⟩ := hx
        rcases htag with h | h
        · rw [h] at hx1; simp at hx1
        · rw [h] at hx2; simp at hx2
      · exact of_decide_eq_true hx
  have hgood0 : goodLineB l0 = true := h2 l0 (List.mem_cons_self _ _)
  obtain ⟨hplE0, hplEmit0, _⟩ := goodLineB_spec l0 hgood0
  obtain ⟨hval0, hhx0⟩ := hroot_props l0 (List.mem_cons_self _ _) h6
  rw [parseFile, parseMethod] at hparse
  simp only [hls, List.headD_cons, List.tail_cons, hplE0] at hparse
  rw [rootLines_cons_pos l0 _ h6, List.map_cons] at h5
  obtain ⟨p, hstep0, hrun0⟩ := runPhase_cons 0 _ _ _ h5
  rw [List.map_cons, chainB, h6] at h3
  rw [Bool.and_eq_true] at h3
  have hmemnb : ∀ l ∈ ltail, l ≠ "" → l ∈ l0 :: ltail.filter (fun x => decide (x ≠ "")) :=
    fun l hl hne => List.mem_cons_of_mem _ (List.mem_filter.2 ⟨hl, by simpa using hne⟩)
  have hend : ∀ x, (ltail.filter (fun x => decide (x ≠ ""))).getLast? = some x →
      levelOf x = 0 := by
    intro x hx
    rcases hfr : ltail.filter (fun x => decide (x ≠ "")) with _ | ⟨c, cs⟩
    · rw [hfr] at hx; simp at hx
    · rw [hfr] at hx
      rw [hfr, List.getLastD_eq_getLast?, List.getLast?_cons_cons, hx] at h7
      exact h7
  have htrlr : (tokOf l0).tag = "TRLR" →
      ([] : List String) = [] ∧ ltail.filter (fun x => decide (x ≠ "")) = [] := by
    intro hT
    refine ⟨rfl, ?_⟩
    have hp7 : p = 7 := by
      rw [hT, (by decide : stepPhase 0 "TRLR" = some 7)] at hstep0
      injection hstep0 with hv
      omega
    have hmapnil : (rootLines (ltail.filter (fun x => decide (x ≠ "")))).map
        (fun t => (tokOf t).tag) = [] :=
      runPhase_seven _ _ (hp7 ▸ hrun0)
    have hrlnil : rootLines (ltail.filter (fun x => decide (x ≠ ""))) = [] :=
      List.map_eq_nil_iff.1 hmapnil
    rcases hfr : ltail.filter (fun x => decide (x ≠ "")) with _ | ⟨c, cs⟩
    · rfl
    · exfalso
      have hlast : (c :: cs).getLast? = some ((c :: cs).getLast (by simp)) :=
        List.getLast?_eq_getLast _ (by simp)
      have hx0 : levelOf ((c :: cs).getLast (by simp)) = 0 := by
        apply hend
        rw [hfr]
        exact hlast
      have hmem : (c :: cs).getLast (by simp) ∈ ltail.filter (fun x => decide (x ≠ "")) := by
        rw [hfr]
        exact List.getLast_mem _
      have hmem2 : (c :: cs).getLast (by simp) ∈
          rootLines (ltail.filter (fun x => decide (x ≠ ""))) := by
        rw [rootLines, List.mem_filter]
        exact ⟨hmem, by simp [hx0]⟩
      rw [hrlnil] at hmem2
      simp at hmem2
  have hmain := parseLoop_emit ltail (tokOf l0) l0 []
    ⟨none, [], [], [], [], []⟩ st 0 p
    (fun l hl hne => h2 l (hmemnb l hl hne))
    hplE0 hplEmit0 h6 hval0 hhx0
    (fun l hl hne h0 => hroot_props l (hmemnb l hl hne) h0)
    (fun l hl => by simp at hl)
    (by rw [List.nil_append]; exact h3.2)
    hstep0 hrun0
    ⟨fun _ => rfl, fun _ => rfl, fun _ => rfl, fun _ => rfl, fun _ => rfl, fun _ => rfl⟩
    htrlr hend hparse
  have hempty : emittedSoFar ⟨none, [], [], [], [], []⟩ = "" := rfl
  have hconc : exportGedcom st = normText file := by
    rw [hmain, hempty, normText, hnb, List.map_cons, strConcat]
    simp [lineNL, strConcat, String.append_assoc]
  refine ⟨hconc, ?_⟩
  rw [gedExport, if_neg (by simp), if_neg (by simp), hconc]

/-- Claim C1 (witness): the amended round-trip law on a concrete
canonical input with a header, an individual, a family and a trailer. -/
theorem claim_C1_witness : exportGedcom c1wstate = normText c1wtext := by
  exact (claim_C1_amended c1wtext c1wstate (by rfl) (by decide)).1

end PyGedcom
